import Mathlib

/-!
Verification of the code-indexing core of the grok-cli code assistant.

The definitions below are a shallow embedding, into Lean, of these
TypeScript sources:

- `src/lib/pathValidator.ts` — path safety (`isPathSafe`), file-path
  validation (`validateFilePath`), the size limit (`MAX_FILE_SIZE`,
  `isFileSizeValid`);
- `src/lib/regexValidator.ts` — regex safety screening (`isRegexSafe`);
- `src/lib/languageConfig.ts` — the extension → language table;
- `src/lib/codeIndexer.ts` — the in-memory index store, the on-disk
  mirror (one `<relativePath>.grok` content object per indexed file plus
  a manifest `codebase-index.json`), the full scan (`indexProject`), the
  single-file upsert (`addOrUpdateFile`), search (`searchCode`), and the
  consistency checker/repairer (`verifyIndex` / `repairIndex`);
- `src/lib/fileWatcher.ts` — the watcher lifecycle.

Modelling conventions, used throughout:

- JavaScript strings are Lean `String`; character-level operations run on
  `String.data` with structural recursion so that every definition
  evaluates inside `decide` and `rfl` proofs.
- A JavaScript `Map` is an association list in insertion order:
  `Map.set` replaces in place or appends, iteration is insertion order.
- The mirror's content objects are a map from `relativePath` to content.
  The source always writes the object for `relativePath` at the disk
  path `relativePath + ".grok"`; appending and stripping that fixed
  suffix are inverse to each other, so the model keys content objects by
  `relativePath` directly and a "top-level" object is one whose key has
  no `/` (a nested object appears to a non-recursive `readdir` of the
  mirror directory only as its leading directory name, which does not
  end in `.grok`).
- Asynchronous I/O that the source awaits is modelled as explicit state
  passing; I/O that cannot fail in the modelled states (directory
  creation after `ensureDirectories`, writes) is treated as succeeding.
- File timestamps are naturals (epoch milliseconds).
-/

/-! ## Character and string helpers -/

/-- Split a character list at every occurrence of `sep`: the model of
JavaScript `String.prototype.split` with a one-character separator
(`content.split('\n')` in codeIndexer.ts, `path` segmentation). -/
def splitOnChar (sep : Char) : List Char → List (List Char)
  | [] => [[]]
  | c :: rest =>
    let r := splitOnChar sep rest
    if c = sep then [] :: r
    else
      match r with
      | h :: t => (c :: h) :: t
      | [] => [[c]]

/-- Whitespace recognized by JavaScript `String.prototype.trim`
(restricted to the ASCII whitespace that can occur in the modelled
content). -/
def isJsSpace (c : Char) : Bool :=
  c = ' ' || c = '\t' || c = '\n' || c = '\r' || c = '\u000B' || c = '\u000C'

/-- JavaScript `String.prototype.trim` on a character list. -/
def trimChars (cs : List Char) : List Char :=
  ((cs.dropWhile isJsSpace).reverse.dropWhile isJsSpace).reverse

/-- JavaScript `String.prototype.startsWith`. -/
def strStartsWith (s pre : String) : Bool :=
  pre.data.isPrefixOf s.data

/-- Does `needle` occur contiguously inside `hay`?  Models JavaScript
`String.prototype.includes` and regex search for a literal. -/
def containsSeq (needle : List Char) : List Char → Bool
  | [] => needle.isEmpty
  | c :: rest => needle.isPrefixOf (c :: rest) || containsSeq needle rest

/-! ## pathValidator.ts -/

/-- Normalize POSIX path segments the way Node's `path.resolve` and
`path.normalize` do for an absolute path: empty and `.` segments are
dropped, `..` pops the previous segment (and is dropped at the root).
`acc` holds the already-processed segments in reverse. -/
def normSegs : List (List Char) → List (List Char) → List (List Char)
  | acc, [] => acc.reverse
  | acc, s :: rest =>
    if s = [] || s = ['.'] then normSegs acc rest
    else if s = ['.', '.'] then normSegs (acc.drop 1) rest
    else normSegs (s :: acc) rest

/-- Interleave `/` between path segments. -/
def joinSegs : List (List Char) → List Char
  | [] => []
  | [s] => s
  | s :: rest => s ++ '/' :: joinSegs rest

/-- Normalization of an absolute POSIX path string. -/
def normAbs (p : String) : String :=
  ⟨'/' :: joinSegs (normSegs [] (splitOnChar '/' p.data))⟩

/-- Node `path.resolve(p)` against the absolute working directory `cwd`
(the resolution of `basePath` at pathValidator.ts line 9). -/
def resolveFrom (cwd p : String) : String :=
  if strStartsWith p "/" then normAbs p else normAbs (cwd ++ "/" ++ p)

/-- Node `path.resolve(basePath, targetPath)` against the absolute
working directory `cwd` (pathValidator.ts line 10): arguments are
processed right to left until an absolute path forms, then normalized. -/
def resolve2 (cwd basePath targetPath : String) : String :=
  if strStartsWith targetPath "/" then normAbs targetPath
  else if strStartsWith basePath "/" then normAbs (basePath ++ "/" ++ targetPath)
  else normAbs (cwd ++ "/" ++ basePath ++ "/" ++ targetPath)

/-- pathValidator.ts `isPathSafe(basePath, targetPath)`: the resolved
target must start with the resolved base followed by the path separator,
or equal the resolved base. -/
def isPathSafe (cwd basePath targetPath : String) : Bool :=
  let resolvedBase := resolveFrom cwd basePath
  let resolvedTarget := resolve2 cwd basePath targetPath
  strStartsWith resolvedTarget (resolvedBase ++ "/") || resolvedTarget == resolvedBase

/-- Control characters rejected by `validateFilePath`
(the character class `[\x00-\x1f\x7f-\x9f]`). -/
def isControlChar (c : Char) : Bool :=
  c.toNat ≤ 0x1f || (0x7f ≤ c.toNat && c.toNat ≤ 0x9f)

/-- ASCII letter (the `[a-zA-Z]` in the Windows drive-letter pattern). -/
def isAsciiLetter (c : Char) : Bool :=
  ('a' ≤ c && c ≤ 'z') || ('A' ≤ c && c ≤ 'Z')

/-- pathValidator.ts `validateFilePath`: rejects NUL bytes, `../` and
`..\` traversal, leading `/`, Windows drive letters, and control
characters. -/
def validateFilePath (filePath : String) : Bool :=
  let cs := filePath.data
  if cs.contains '\u0000' then false
  else
    let dangerous :=
      containsSeq ['.', '.', '/'] cs
      || containsSeq ['.', '.', '\\'] cs
      || (match cs with | '/' :: _ => true | _ => false)
      || (match cs with | a :: ':' :: _ => isAsciiLetter a | _ => false)
      || cs.any isControlChar
    !dangerous

/-- pathValidator.ts `MAX_FILE_SIZE`: 10 MiB. -/
def MAX_FILE_SIZE : Nat := 10 * 1024 * 1024

/-- pathValidator.ts `isFileSizeValid`: `size > 0 && size <= MAX_FILE_SIZE`
(sizes reported by `stat` are non-negative, hence `Nat`). -/
def isFileSizeValid (size : Nat) : Bool :=
  decide (0 < size) && decide (size ≤ MAX_FILE_SIZE)

/-! ## regexValidator.ts

`isRegexSafe` tests the pattern string against four fixed "dangerous
shape" regexes.  Each regex is embedded as a scanner over the pattern's
characters that decides whether the regex matches anywhere in the
string, which is exactly what `RegExp.prototype.test` decides. -/

/-- A `+` or `*` character (the alternative `(\+|\*)` and the class
`[+*]`). -/
def isQuantChar (c : Char) : Bool :=
  c = '+' || c = '*'

/-- Matches of the first dangerous shape, `(\+|\*){2,}`: two adjacent
quantifier characters somewhere in the string. -/
def hasAdjacentQuant : List Char → Bool
  | a :: b :: rest => (isQuantChar a && isQuantChar b) || hasAdjacentQuant (b :: rest)
  | _ => false

/-- Consume characters up to and including the first `close`;
`none` when `close` never occurs.  Models `[^x]*x` which, matching
greedily over non-`x` characters, always stops at the first `x`. -/
def skipToClose (close : Char) : List Char → Option (List Char)
  | [] => none
  | c :: rest => if c = close then some rest else skipToClose close rest

/-- Match `\{[0-9]{3,}\}` at the head of the list: an opening brace, at
least three digits, and a closing brace right after the digit run. -/
def bigRepeatAtHead : List Char → Bool
  | '{' :: rest =>
    let ds := rest.takeWhile Char.isDigit
    let after := rest.dropWhile Char.isDigit
    decide (3 ≤ ds.length) && (match after with | '}' :: _ => true | _ => false)
  | _ => false

/-- Match `\([^)]*\)\{[0-9]{3,}\}` at the head (second dangerous shape,
large repetition of a group). -/
def groupBigRepeatAtHead : List Char → Bool
  | '(' :: rest =>
    match skipToClose ')' rest with
    | some after => bigRepeatAtHead after
    | none => false
  | _ => false

/-- Match `\[[^\]]*\]\{[0-9]{3,}\}` at the head (fourth dangerous shape,
large repetition of a character class). -/
def classBigRepeatAtHead : List Char → Bool
  | '[' :: rest =>
    match skipToClose ']' rest with
    | some after => bigRepeatAtHead after
    | none => false
  | _ => false

/-- Scan for `[^)]*\+\)[+*]` after an opening parenthesis: walk to the
first `)`, requiring the character right before it to be `+` and the
character right after it to be a quantifier.  `prev` is the last
consumed character. -/
def plusGroupScan : Option Char → List Char → Bool
  | prev, ')' :: q :: _ => decide (prev = some '+') && isQuantChar q
  | _, [')'] => false
  | _, c :: rest => plusGroupScan (some c) rest
  | _, [] => false

/-- Match `\([^)]*\+\)[+*]` at the head (third dangerous shape, nested
quantifier on a group). -/
def plusGroupQuantAtHead : List Char → Bool
  | '(' :: rest => plusGroupScan none rest
  | _ => false

/-- Does `f` hold at some suffix of the list?  Models searching the
pattern anywhere in the string, as `RegExp.prototype.test` does. -/
def anyPos (f : List Char → Bool) : List Char → Bool
  | [] => f []
  | c :: rest => f (c :: rest) || anyPos f rest

/-- regexValidator.ts `isRegexSafe`: the pattern is safe when none of
the four dangerous shapes occurs in it. -/
def isRegexSafe (pattern : String) : Bool :=
  let cs := pattern.data
  !(hasAdjacentQuant cs
    || anyPos groupBigRepeatAtHead cs
    || anyPos plusGroupQuantAtHead cs
    || anyPos classBigRepeatAtHead cs)


/-! ## Association lists: the model of a JavaScript `Map` and of a JSON
object keyed by relative path -/

/-- `Map.get` / JSON property lookup: first binding of the key. -/
def lookupKey {β : Type} : List (String × β) → String → Option β
  | [], _ => none
  | e :: rest, k => if e.1 = k then some e.2 else lookupKey rest k

/-- `Map.set`: replace in place when the key is present, append
otherwise (JavaScript `Map` keeps the original insertion position on
overwrite). -/
def setKey {β : Type} : List (String × β) → String → β → List (String × β)
  | [], k, v => [(k, v)]
  | e :: rest, k, v =>
    if e.1 = k then (k, v) :: rest else e :: setKey rest k v

/-! ## languageConfig.ts -/

/-- languageConfig.ts `languageExtensions`: the extension → language
table. -/
def languageExtensions : List (String × String) :=
  [(".js", "javascript"), (".jsx", "javascript"), (".mjs", "javascript"),
   (".cjs", "javascript"), (".ts", "typescript"), (".tsx", "typescript"),
   (".d.ts", "typescript"),
   (".py", "python"), (".pyw", "python"), (".pyx", "python"),
   (".pyi", "python"), (".pyc", "python"),
   (".java", "java"), (".kt", "kotlin"), (".kts", "kotlin"),
   (".c", "c"), (".h", "c"), (".cpp", "cpp"), (".cc", "cpp"),
   (".cxx", "cpp"), (".hpp", "cpp"), (".hh", "cpp"), (".hxx", "cpp"),
   (".cs", "csharp"), (".csx", "csharp"),
   (".go", "go"), (".rs", "rust"),
   (".rb", "ruby"), (".erb", "ruby"), (".rake", "ruby"),
   (".php", "php"), (".phtml", "php"), (".php3", "php"), (".php4", "php"),
   (".php5", "php"), (".php7", "php"), (".phps", "php"),
   (".swift", "swift"), (".m", "objective-c"), (".mm", "objective-c"),
   (".scala", "scala"), (".sc", "scala"),
   (".r", "r"), (".R", "r"), (".rmd", "r"), (".Rmd", "r"),
   (".jl", "julia"), (".dart", "dart"), (".lua", "lua"),
   (".pl", "perl"), (".pm", "perl"), (".pod", "perl"),
   (".sh", "shell"), (".bash", "bash"), (".zsh", "zsh"), (".fish", "fish"),
   (".ps1", "powershell"), (".psm1", "powershell"), (".psd1", "powershell"),
   (".html", "html"), (".htm", "html"), (".xhtml", "html"),
   (".css", "css"), (".scss", "scss"), (".sass", "sass"),
   (".less", "less"), (".styl", "stylus"),
   (".json", "json"), (".jsonc", "json"), (".json5", "json"),
   (".xml", "xml"), (".yaml", "yaml"), (".yml", "yaml"),
   (".toml", "toml"), (".ini", "ini"), (".cfg", "ini"),
   (".conf", "conf"), (".properties", "properties"),
   (".md", "markdown"), (".markdown", "markdown"), (".mdown", "markdown"),
   (".mkd", "markdown"), (".mdx", "markdown"),
   (".rst", "rst"), (".tex", "latex"), (".latex", "latex"),
   (".sql", "sql"), (".vue", "vue"), (".svelte", "svelte"),
   (".dockerfile", "dockerfile"), (".makefile", "makefile"),
   (".mk", "makefile"), (".cmake", "cmake")]

/-- The suffix of the list starting at its last `.`, if any. -/
def lastDotSuffix : List Char → Option (List Char)
  | [] => none
  | '.' :: rest =>
    (match lastDotSuffix rest with
     | some s => some s
     | none => some ('.' :: rest))
  | _ :: rest => lastDotSuffix rest

/-- Node `path.extname`, already lowercased as in
`getLanguageFromExtension`: the extension of the last path segment,
ignoring a dot in first position (so dotfiles have no extension). -/
def extnameLower (p : String) : String :=
  let base :=
    match (splitOnChar '/' p.data).getLast? with
    | some b => b
    | none => p.data
  let ext :=
    match base with
    | [] => []
    | _ :: rest =>
      (match lastDotSuffix rest with
       | some s => s
       | none => [])
  ⟨ext.map Char.toLower⟩

/-- codeIndexer.ts `getLanguageFromExtension`: table lookup with
default `"text"`. -/
def getLanguageFromExtension (filePath : String) : String :=
  match lookupKey languageExtensions (extnameLower filePath) with
  | some l => l
  | none => "text"


/-! ## codeIndexer.ts: data model -/

/-- codeIndexer.ts `CodeFile` (`lastModified` as epoch milliseconds). -/
structure CodeFile where
  path : String
  relativePath : String
  content : String
  language : String
  size : Nat
  lastModified : Nat
deriving DecidableEq

/-- A manifest entry: `CodeFile` minus `content`, exactly the spread
`const { content, ...metadata } = file` in `saveIndex`. -/
structure FileMeta where
  path : String
  relativePath : String
  language : String
  size : Nat
  lastModified : Nat
deriving DecidableEq

/-- Drop the `content` field. -/
def metaOf (f : CodeFile) : FileMeta :=
  ⟨f.path, f.relativePath, f.language, f.size, f.lastModified⟩

/-- The in-memory index store `indexedFiles : Map<string, CodeFile>`. -/
abbrev Store := List (String × CodeFile)

/-- The persisted state under `.grok-memory`: the manifest
`codebase-index.json` (`none` when missing or unreadable) and the mirror
content objects, keyed by `relativePath` (stored on disk at
`relativePath + ".grok"` under the `codebase` directory). -/
structure Disk where
  manifest : Option (List (String × FileMeta))
  grokFiles : List (String × String)
deriving DecidableEq

/-- codeIndexer.ts `saveFileToMemory`: write one mirror content object
(parent directories are created as needed, so the write succeeds for
nested keys too). -/
def saveFileToMemory (disk : Disk) (relativePath content : String) : Disk :=
  { disk with grokFiles := setKey disk.grokFiles relativePath content }

/-- The manifest produced from a store by `saveIndex`. -/
def manifestOf (store : Store) : List (String × FileMeta) :=
  store.map fun e => (e.1, metaOf e.2)

/-- codeIndexer.ts `saveIndex`: full rewrite of the manifest from the
in-memory store. -/
def saveIndex (store : Store) (disk : Disk) : Disk :=
  { disk with manifest := some (manifestOf store) }

/-- Does the relative path lie in a subdirectory of the mirror tree? -/
def containsSlash (s : String) : Bool :=
  s.data.contains '/'

/-- codeIndexer.ts `clearPersistedFiles`: `readdir` of the codebase
directory is not recursive, so only the `.grok` objects whose name
appears at top level are unlinked; content objects in subdirectories
remain.  The manifest is rewritten to `{}`. -/
def clearPersistedFiles (disk : Disk) : Disk :=
  { manifest := some []
    grokFiles := disk.grokFiles.filter fun e => containsSlash e.1 }

/-! ## codeIndexer.ts: verifyIndex / repairIndex -/

/-- Keys present in the manifest but absent from the in-memory store
(`File in index but not in memory`). -/
def missingFromMemoryOf (store : Store) (idx : List (String × FileMeta)) : List String :=
  (idx.map Prod.fst).filter fun k => (lookupKey store k).isNone

/-- Keys present in memory but absent from the manifest
(`File in memory but not in index`; reported in `issues` only, the
source keeps no stats field for it). -/
def memoryNotInIndexOf (store : Store) (idx : List (String × FileMeta)) : List String :=
  (store.map Prod.fst).filter fun k => (lookupKey idx k).isNone

/-- The mirror content objects a non-recursive `readdir` of the codebase
directory sees: those whose `relativePath` has no `/`.  Nested objects
only surface as a directory name, which does not end in `.grok`. -/
def topLevelGrokKeys (grokFiles : List (String × String)) : List String :=
  (grokFiles.map Prod.fst).filter fun k => !containsSlash k

/-- Keys in memory whose mirror content object is missing on disk
(`File in memory but not on disk`; this check probes the full path with
`fs.access`, so it sees nested objects too). -/
def missingFromDiskOf (store : Store) (grokFiles : List (String × String)) : List String :=
  (store.map Prod.fst).filter fun k => (lookupKey grokFiles k).isNone

/-- Top-level mirror content objects whose key has no store entry
(`Orphaned file on disk`).  Because the enumeration is the non-recursive
`readdir`, nested orphans are never listed here. -/
def orphanedOf (store : Store) (grokFiles : List (String × String)) : List String :=
  (topLevelGrokKeys grokFiles).filter fun k => (lookupKey store k).isNone

/-- The `stats` object of `verifyIndex` (orphaned files recorded by
their `relativePath` key; the source stores the file name, which is the
key with the fixed `.grok` suffix appended). -/
structure VerifyStats where
  indexCount : Nat
  memoryCount : Nat
  diskCount : Nat
  missingFromDisk : List String
  missingFromMemory : List String
  orphanedFiles : List String
deriving DecidableEq

/-- The report returned by `verifyIndex`. -/
structure VerifyReport where
  valid : Bool
  issues : List String
  stats : VerifyStats
deriving DecidableEq

/-- codeIndexer.ts `verifyIndex`: a cold read of the manifest, then the
four divergence checks; `valid` is `issues.length === 0`.  When the
manifest cannot be read, the single issue `Failed to read index` is
reported and the disk checks are skipped. -/
def verifyIndex (store : Store) (disk : Disk) : VerifyReport :=
  match disk.manifest with
  | none =>
    let issues := ["Failed to read index"]
    { valid := issues.isEmpty
      issues := issues
      stats := ⟨0, store.length, 0, [], [], []⟩ }
  | some idx =>
    let mfm := missingFromMemoryOf store idx
    let mni := memoryNotInIndexOf store idx
    let mfd := missingFromDiskOf store disk.grokFiles
    let orph := orphanedOf store disk.grokFiles
    let issues :=
      mfm.map (fun k => "File in index but not in memory: " ++ k)
      ++ mni.map (fun k => "File in memory but not in index: " ++ k)
      ++ mfd.map (fun k => "File in memory but not on disk: " ++ k)
      ++ orph.map (fun k => "Orphaned file on disk: " ++ k ++ ".grok")
    { valid := issues.isEmpty
      issues := issues
      stats := ⟨idx.length, store.length, (topLevelGrokKeys disk.grokFiles).length,
                mfd, mfm, orph⟩ }

/-- The repair loop over `this.indexedFiles`: re-persist the mirror
content object of every store entry listed in `missing`. -/
def repersist (missing : List String) : List (String × String) → Store → List (String × String)
  | g, [] => g
  | g, e :: rest =>
    repersist missing (if e.1 ∈ missing then setKey g e.1 e.2.content else g) rest

/-- codeIndexer.ts `repairIndex`: when the verification report is
already valid nothing is touched; otherwise the orphaned content
objects from the report are unlinked, the content objects the report
found missing are re-persisted from memory, and the manifest is
rewritten from the store (`saveIndex`). -/
def repairIndex (store : Store) (disk : Disk) : Disk :=
  let v := verifyIndex store disk
  if v.valid then disk
  else
    let g1 := disk.grokFiles.filter fun e => decide (e.1 ∉ v.stats.orphanedFiles)
    let g2 := repersist v.stats.missingFromDisk g1 store
    { manifest := some (manifestOf store), grokFiles := g2 }

/-! ## codeIndexer.ts: indexProject (the Scanner) -/

/-- One observable file: its `stat` size, its decoded content, and its
modification time.  `size` comes from `stat` and `content` from
`readFile`, exactly as in the source, where the two are reads of
independent attributes. -/
structure FileInfo where
  size : Nat
  content : String
  mtime : Nat
deriving DecidableEq

/-- The environment of a full scan: the project root, the candidate
relative paths returned by `glob`, the combined ignore predicate
(`ignore().add(allIgnorePatterns).ignores`), and the readable files of
the project (a path absent from `fsFiles` models a `stat`/`readFile`
failure, which the scan skips). -/
structure ScanEnv where
  root : String
  candidates : List String
  ignores : String → Bool
  fsFiles : List (String × FileInfo)

/-- Node `path.join` of an absolute root with a relative path. -/
def joinPath (root rel : String) : String :=
  normAbs (root ++ "/" ++ rel)

/-- The body of the `for (const file of filesToIndex)` loop in
`indexProject`: skip on unreadable, oversized (`isFileSizeValid`) or
binary (NUL byte) files, otherwise build the `CodeFile`, set it in the
store, persist the mirror object, and count it. -/
def scanStep (env : ScanEnv) (acc : Store × Disk × Nat) (file : String) : Store × Disk × Nat :=
  match lookupKey env.fsFiles file with
  | none => acc
  | some info =>
    if !isFileSizeValid info.size then acc
    else if info.content.data.contains '\u0000' then acc
    else
      let codeFile : CodeFile :=
        { path := joinPath env.root file
          relativePath := file
          content := info.content
          language := getLanguageFromExtension file
          size := info.size
          lastModified := info.mtime }
      (setKey acc.1 file codeFile, saveFileToMemory acc.2.1 file info.content, acc.2.2 + 1)

/-- The scan loop over the filtered candidates. -/
def scanFiles (env : ScanEnv) : Store × Disk × Nat → List String → Store × Disk × Nat
  | acc, [] => acc
  | acc, f :: rest => scanFiles env (scanStep env acc f) rest

/-- codeIndexer.ts `indexProject`: clear the in-memory store and the
persisted files, drop the ignored candidates, index the rest, and save
the manifest.  Returns the new store, the new disk state and the count
of files indexed. -/
def indexProject (env : ScanEnv) (disk0 : Disk) : Store × Disk × Nat :=
  let disk1 := clearPersistedFiles disk0
  let filesToIndex := env.candidates.filter fun f => !env.ignores f
  let r := scanFiles env ([], disk1, 0) filesToIndex
  (r.1, saveIndex r.1 r.2.1, r.2.2)

/-! ## codeIndexer.ts: addOrUpdateFile (the Watcher / upsert path) -/

/-- codeIndexer.ts `addOrUpdateFile`: validate the relative path, check
the joined full path against the project root, then skip files larger
than 1 MiB (`stats.size > 1024 * 1024` — not `isFileSizeValid`) and
binary files; on acceptance update the store, persist the mirror object
and rewrite the manifest.  Any early exit leaves store and disk
untouched. -/
def addOrUpdateFile (cwd root : String) (fsFiles : List (String × FileInfo))
    (relativePath : String) (store : Store) (disk : Disk) : Store × Disk :=
  if !validateFilePath relativePath then (store, disk)
  else
    let fullPath := joinPath root relativePath
    if !isPathSafe cwd root fullPath then (store, disk)
    else
      match lookupKey fsFiles relativePath with
      | none => (store, disk)
      | some info =>
        if 1024 * 1024 < info.size then (store, disk)
        else if info.content.data.contains '\u0000' then (store, disk)
        else
          let codeFile : CodeFile :=
            { path := fullPath
              relativePath := relativePath
              content := info.content
              language := getLanguageFromExtension relativePath
              size := info.size
              lastModified := info.mtime }
          let store' := setKey store relativePath codeFile
          (store', saveIndex store' (saveFileToMemory disk relativePath info.content))

/-! ## codeIndexer.ts: searchCode (the Search Engine)

The compiled `RegExp` is the one non-Lean ingredient of `searchCode`.
Its per-line behaviour — `Array.from(line.matchAll(searchRegex))`,
yielding for each match its start index and its length — is taken as a
parameter `engine : List Char → List (Nat × Nat)`.  Every structural
theorem below is proved for an arbitrary engine; for concrete runs the
literal-mode engine (escaped query, no whole-word anchor) is realized by
`literalEngine`. -/

/-- The error thrown at codeIndexer.ts line 219
(`Potentially unsafe regex pattern`); the spec's `UnsafePatternError`. -/
inductive SearchError where
  | unsafePattern
deriving DecidableEq

/-- The options object of `searchCode`, with the source's defaults. -/
structure SearchOptions where
  regex : Bool := false
  caseSensitive : Bool := false
  wholeWord : Bool := false
  filePattern : Option String := none
  language : Option String := none
  maxResults : Nat := 50

/-- One reported match: 1-based line number, trimmed line text, and the
start/end character offsets of the match within that line. -/
structure SearchMatch where
  line : Nat
  content : String
  startIndex : Nat
  endIndex : Nat
deriving DecidableEq

/-- One element of the result list of `searchCode` (the field name
`matches` of the source is quoted because it is reserved in Lean). -/
structure SearchResult where
  file : CodeFile
  «matches» : List SearchMatch
deriving DecidableEq

/-- The `lines.forEach((line, index) => ...)` loop: every line is run
through the engine independently; each engine match `(start, len)`
becomes a record with line number `index + 1`, the trimmed line, and
offsets `start` / `start + len`. -/
def collectMatches (engine : List Char → List (Nat × Nat)) :
    Nat → List (List Char) → List SearchMatch
  | _, [] => []
  | i, line :: rest =>
    ((engine line).map fun m => ⟨i + 1, ⟨trimChars line⟩, m.1, m.1 + m.2⟩)
      ++ collectMatches engine (i + 1) rest

/-- All matches of one file: its content split on `'\n'`, scanned line
by line. -/
def fileMatchesOf (engine : List Char → List (Nat × Nat)) (content : String) :
    List SearchMatch :=
  collectMatches engine 0 (splitOnChar '\n' content.data)

/-- The `for (const [filePath, codeFile] of this.indexedFiles)` loop:
apply the path-substring and language filters, skip files with no
match, and stop as soon as `results.length >= maxResults` after a push.
`count` is the number of results already collected. -/
def searchFiles (engine : List Char → List (Nat × Nat)) (opts : SearchOptions) :
    Nat → Store → List SearchResult
  | _, [] => []
  | count, e :: rest =>
    if (match opts.filePattern with
        | some fp => !containsSeq fp.data e.1.data
        | none => false) then searchFiles engine opts count rest
    else if (match opts.language with
        | some lg => decide (e.2.language ≠ lg)
        | none => false) then searchFiles engine opts count rest
    else
      let fileMatches := fileMatchesOf engine e.2.content
      if fileMatches.isEmpty then searchFiles engine opts count rest
      else if opts.maxResults ≤ count + 1 then [⟨e.2, fileMatches⟩]
      else ⟨e.2, fileMatches⟩ :: searchFiles engine opts (count + 1) rest

/-- codeIndexer.ts `searchCode`: in regex mode the pattern is first
screened by `isRegexSafe`, and rejection throws before any `RegExp` is
built or any file is visited; otherwise the store is scanned in
insertion order.  The function reads the store and never writes it. -/
def searchCode (store : Store) (query : String) (opts : SearchOptions)
    (engine : List Char → List (Nat × Nat)) : Except SearchError (List SearchResult) :=
  if opts.regex && !isRegexSafe query then .error .unsafePattern
  else .ok (searchFiles engine opts 0 store)

/-- Non-overlapping left-to-right matches of a literal needle, as
`matchAll` produces for the escaped-literal regex: at each position try
the needle; on success emit `(pos, needle.length)` and continue after
the match (a zero-length match advances by one, as `matchAll` does).
`fuel` bounds the recursion by the remaining text length. -/
def scanMatchesGo (needle : List Char) : Nat → Nat → List Char → List (Nat × Nat)
  | 0, _, _ => []
  | fuel + 1, pos, hay =>
    if needle.isPrefixOf hay then
      match needle with
      | [] =>
        (pos, 0) ::
          (match hay with
           | [] => []
           | _ :: t => scanMatchesGo needle fuel (pos + 1) t)
      | _ =>
        (pos, needle.length) ::
          scanMatchesGo needle fuel (pos + needle.length) (hay.drop needle.length)
    else
      match hay with
      | [] => []
      | _ :: t => scanMatchesGo needle fuel (pos + 1) t

/-- All literal matches of `needle` in `hay`. -/
def scanMatches (needle hay : List Char) : List (Nat × Nat) :=
  scanMatchesGo needle (hay.length + 1) 0 hay

/-- Case folding for the `i` flag (ASCII, as relevant here). -/
def foldCase (caseSensitive : Bool) (cs : List Char) : List Char :=
  if caseSensitive then cs else cs.map Char.toLower

/-- Per-line semantics of the regex compiled in the literal branch of
`searchCode` (codeIndexer.ts lines 223–225) for `wholeWord := false`:
after escaping, the pattern matches exactly the literal occurrences of
the query, case-folded unless `caseSensitive`. -/
def literalEngine (caseSensitive : Bool) (query : String) (line : List Char) :
    List (Nat × Nat) :=
  scanMatches (foldCase caseSensitive query.data) (foldCase caseSensitive line)

/-! ## fileWatcher.ts: the watcher lifecycle -/

/-- The watcher's mutable state: `watcher !== null` and `isWatching`. -/
structure WatcherState where
  hasWatcher : Bool
  isWatching : Bool
deriving DecidableEq

namespace FileWatcher

/-- Construction state: no subscription, not watching. -/
def initial : WatcherState := ⟨false, false⟩

/-- fileWatcher.ts `start` (lines 30–83): a no-op when already
watching; otherwise the chokidar subscription is created.  `isWatching`
only becomes true when the subscription fires `ready`. -/
def start (s : WatcherState) : WatcherState :=
  if s.isWatching then s else { s with hasWatcher := true }

/-- The `ready` event handler (lines 76–79): set `isWatching`. -/
def onReady (s : WatcherState) : WatcherState :=
  { s with isWatching := true }

/-- The `error` event handler (lines 80–82): the error is logged with
`console.error` and nothing else happens — the handler neither closes
the subscription nor clears `isWatching`. -/
def onError (s : WatcherState) : WatcherState :=
  s

/-- fileWatcher.ts `stop` (lines 85–91): close and release the
subscription, clear `isWatching`. -/
def stop (s : WatcherState) : WatcherState :=
  if s.hasWatcher then ⟨false, false⟩ else s

/-- fileWatcher.ts `isActive` (lines 187–189). -/
def isActive (s : WatcherState) : Bool :=
  s.isWatching

end FileWatcher

/-! ## Shared lemmas about the association-list operations -/

theorem lookupKey_isSome_of_mem_keys {β : Type} {l : List (String × β)} {k : String}
    (h : k ∈ l.map Prod.fst) : (lookupKey l k).isSome = true := by
  induction l with
  | nil => simp at h
  | cons e rest ih =>
    rw [lookupKey]
    by_cases he : e.1 = k
    · simp [he]
    · simp only [List.map_cons, List.mem_cons] at h
      rcases h with h | h
      · exact absurd h.symm he
      · simp [he, ih h]

theorem mem_keys_of_lookupKey_isSome {β : Type} {l : List (String × β)} {k : String}
    (h : (lookupKey l k).isSome = true) : k ∈ l.map Prod.fst := by
  induction l with
  | nil => simp [lookupKey] at h
  | cons e rest ih =>
    rw [lookupKey] at h
    by_cases he : e.1 = k
    · simp only [List.map_cons, List.mem_cons]
      exact Or.inl he.symm
    · rw [if_neg he] at h
      simp only [List.map_cons, List.mem_cons]
      exact Or.inr (ih h)

theorem lookupKey_setKey_self {β : Type} (l : List (String × β)) (k : String) (v : β) :
    lookupKey (setKey l k v) k = some v := by
  induction l with
  | nil => simp [setKey, lookupKey]
  | cons e rest ih =>
    rw [setKey]
    by_cases he : e.1 = k
    · rw [if_pos he, lookupKey]
      simp
    · rw [if_neg he, lookupKey, if_neg he]
      exact ih

theorem lookupKey_setKey_ne {β : Type} (l : List (String × β)) (k k' : String) (v : β)
    (h : k ≠ k') : lookupKey (setKey l k v) k' = lookupKey l k' := by
  induction l with
  | nil => simp [setKey, lookupKey, h]
  | cons e rest ih =>
    rw [setKey]
    by_cases he : e.1 = k
    · rw [if_pos he, lookupKey, lookupKey]
      simp [he, h]
    · rw [if_neg he, lookupKey, lookupKey, ih]

theorem lookupKey_setKey_isSome {β : Type} (l : List (String × β)) (k k' : String) (v : β)
    (h : (lookupKey l k').isSome = true) :
    (lookupKey (setKey l k v) k').isSome = true := by
  by_cases hk : k = k'
  · subst hk
    rw [lookupKey_setKey_self]
    rfl
  · rw [lookupKey_setKey_ne _ _ _ _ hk]
    exact h

theorem mem_keys_setKey {β : Type} {l : List (String × β)} {k k' : String} {v : β}
    (h : k' ∈ (setKey l k v).map Prod.fst) : k' ∈ l.map Prod.fst ∨ k' = k := by
  induction l with
  | nil =>
    simp [setKey] at h
    exact Or.inr h
  | cons e rest ih =>
    rw [setKey] at h
    by_cases he : e.1 = k
    · rw [if_pos he] at h
      simp only [List.map_cons, List.mem_cons] at h
      rcases h with h | h
      · exact Or.inr h
      · exact Or.inl (by simp only [List.map_cons, List.mem_cons]; exact Or.inr h)
    · rw [if_neg he] at h
      simp only [List.map_cons, List.mem_cons] at h
      rcases h with h | h
      · exact Or.inl (by simp [h])
      · rcases ih h with h2 | h2
        · exact Or.inl (by simp only [List.map_cons, List.mem_cons]; exact Or.inr h2)
        · exact Or.inr h2

theorem lookupKey_filter_isSome {β : Type} {l : List (String × β)} {k : String}
    {p : String → Bool} (h : (lookupKey l k).isSome = true) (hp : p k = true) :
    (lookupKey (l.filter fun e => p e.1) k).isSome = true := by
  induction l with
  | nil => simp [lookupKey] at h
  | cons e rest ih =>
    rw [lookupKey] at h
    rw [List.filter_cons]
    by_cases he : e.1 = k
    · have hpe : p e.1 = true := by rw [he]; exact hp
      simp [hpe, lookupKey, he, hp]
    · rw [if_neg he] at h
      cases hpe : p e.1
      · simp only [hpe, Bool.false_eq_true, if_false]
        exact ih h
      · simp only [hpe, if_true]
        rw [lookupKey, if_neg he]
        exact ih h

theorem mem_keys_filter_key {β : Type} {l : List (String × β)} {k : String}
    {p : String → Bool} (h : k ∈ (l.filter fun e => p e.1).map Prod.fst) :
    k ∈ l.map Prod.fst ∧ p k = true := by
  induction l with
  | nil => simp at h
  | cons e rest ih =>
    rw [List.filter_cons] at h
    cases hpe : p e.1 with
    | false =>
      rw [hpe] at h
      simp only [Bool.false_eq_true, if_false] at h
      rcases ih h with ⟨h1, h2⟩
      exact ⟨by simp only [List.map_cons, List.mem_cons]; exact Or.inr h1, h2⟩
    | true =>
      rw [hpe] at h
      simp only [if_true, List.map_cons, List.mem_cons] at h
      rcases h with h | h
      · subst h
        exact ⟨by simp, hpe⟩
      · rcases ih h with ⟨h1, h2⟩
        exact ⟨by simp only [List.map_cons, List.mem_cons]; exact Or.inr h1, h2⟩

theorem isNone_false_of_isSome {α : Type} {o : Option α} (h : o.isSome = true) :
    o.isNone = false := by
  cases o with
  | none => simp at h
  | some v => rfl

theorem lookupKey_manifestOf_isSome (store : Store) (k : String) :
    (lookupKey (manifestOf store) k).isSome = (lookupKey store k).isSome := by
  induction store with
  | nil => rfl
  | cons e rest ih =>
    simp only [manifestOf, List.map_cons] at ih ⊢
    rw [lookupKey, lookupKey]
    by_cases he : e.1 = k
    · simp [he]
    · simp [he, ih]

theorem manifestOf_keys (store : Store) :
    (manifestOf store).map Prod.fst = store.map Prod.fst := by
  simp [manifestOf, List.map_map]

theorem repersist_preserves_isSome (missing : List String) (l : Store)
    (g : List (String × String)) (k : String)
    (h : (lookupKey g k).isSome = true) :
    (lookupKey (repersist missing g l) k).isSome = true := by
  induction l generalizing g with
  | nil =>
    rw [repersist]
    exact h
  | cons e rest ih =>
    rw [repersist]
    by_cases hm : e.1 ∈ missing
    · rw [if_pos hm]
      exact ih _ (lookupKey_setKey_isSome _ _ _ _ h)
    · rw [if_neg hm]
      exact ih _ h

theorem repersist_sets (missing : List String) (l : Store)
    (g : List (String × String)) (k : String)
    (hk : k ∈ l.map Prod.fst) (hm : k ∈ missing) :
    (lookupKey (repersist missing g l) k).isSome = true := by
  induction l generalizing g with
  | nil => simp at hk
  | cons e rest ih =>
    rw [repersist]
    by_cases he : e.1 = k
    · have hem : e.1 ∈ missing := by rw [he]; exact hm
      rw [if_pos hem]
      apply repersist_preserves_isSome
      rw [he, lookupKey_setKey_self]
      rfl
    · have hk' : k ∈ rest.map Prod.fst := by
        simp only [List.map_cons, List.mem_cons] at hk
        rcases hk with h | h
        · exact absurd h.symm he
        · exact h
      exact ih _ hk'

theorem mem_keys_repersist (missing : List String) (l : Store)
    (g : List (String × String)) (k : String)
    (h : k ∈ (repersist missing g l).map Prod.fst) :
    k ∈ g.map Prod.fst ∨ k ∈ l.map Prod.fst := by
  induction l generalizing g with
  | nil =>
    rw [repersist] at h
    exact Or.inl h
  | cons e rest ih =>
    rw [repersist] at h
    rcases ih _ h with h2 | h2
    · by_cases hm : e.1 ∈ missing
      · rw [if_pos hm] at h2
        rcases mem_keys_setKey h2 with h3 | h3
        · exact Or.inl h3
        · exact Or.inr (by simp only [List.map_cons, List.mem_cons]; exact Or.inl h3)
      · rw [if_neg hm] at h2
        exact Or.inl h2
    · exact Or.inr (by simp only [List.map_cons, List.mem_cons]; exact Or.inr h2)

/-! ## Lemmas about verifyIndex and repairIndex -/

theorem verifyIndex_valid_manifest_isSome {store : Store} {disk : Disk}
    (h : (verifyIndex store disk).valid = true) : disk.manifest.isSome = true := by
  cases hm : disk.manifest with
  | none => simp [verifyIndex, hm] at h
  | some idx => rfl

theorem verifyIndex_stats_missingFromDisk {store : Store} {disk : Disk}
    {idx : List (String × FileMeta)} (h : disk.manifest = some idx) :
    (verifyIndex store disk).stats.missingFromDisk
      = missingFromDiskOf store disk.grokFiles := by
  simp [verifyIndex, h]

theorem verifyIndex_stats_orphanedFiles {store : Store} {disk : Disk}
    {idx : List (String × FileMeta)} (h : disk.manifest = some idx) :
    (verifyIndex store disk).stats.orphanedFiles
      = orphanedOf store disk.grokFiles := by
  simp [verifyIndex, h]

theorem verifyIndex_some_valid (store : Store) (idx : List (String × FileMeta))
    (g : List (String × String))
    (h1 : missingFromMemoryOf store idx = [])
    (h2 : memoryNotInIndexOf store idx = [])
    (h3 : missingFromDiskOf store g = [])
    (h4 : orphanedOf store g = []) :
    (verifyIndex store ⟨some idx, g⟩).valid = true := by
  simp [verifyIndex, h1, h2, h3, h4]

theorem missingFromMemoryOf_manifestOf (store : Store) :
    missingFromMemoryOf store (manifestOf store) = [] := by
  rw [missingFromMemoryOf, manifestOf_keys]
  apply List.filter_eq_nil_iff.mpr
  intro k hk
  simp [isNone_false_of_isSome (lookupKey_isSome_of_mem_keys hk)]

theorem memoryNotInIndexOf_manifestOf (store : Store) :
    memoryNotInIndexOf store (manifestOf store) = [] := by
  rw [memoryNotInIndexOf]
  apply List.filter_eq_nil_iff.mpr
  intro k hk
  have hs : (lookupKey (manifestOf store) k).isSome = true := by
    rw [lookupKey_manifestOf_isSome]
    exact lookupKey_isSome_of_mem_keys hk
  simp [isNone_false_of_isSome hs]

theorem missingFromDiskOf_repaired (store : Store) (disk : Disk) :
    missingFromDiskOf store
      (repersist (missingFromDiskOf store disk.grokFiles)
        (disk.grokFiles.filter fun e => decide (e.1 ∉ orphanedOf store disk.grokFiles))
        store) = [] := by
  rw [missingFromDiskOf]
  apply List.filter_eq_nil_iff.mpr
  intro k hk
  by_cases hmfd : k ∈ missingFromDiskOf store disk.grokFiles
  · simp [isNone_false_of_isSome (repersist_sets _ _ _ _ hk hmfd)]
  · cases ho : lookupKey disk.grokFiles k with
    | none =>
      exfalso
      apply hmfd
      rw [missingFromDiskOf]
      exact List.mem_filter.mpr ⟨hk, by rw [ho]; rfl⟩
    | some v =>
      have hsome : (lookupKey disk.grokFiles k).isSome = true := by rw [ho]; rfl
      have hnotorph : k ∉ orphanedOf store disk.grokFiles := by
        intro horph
        rw [orphanedOf] at horph
        have h2 := (List.mem_filter.mp horph).2
        rw [isNone_false_of_isSome (lookupKey_isSome_of_mem_keys hk)] at h2
        simp at h2
      have h1 : (lookupKey
          (disk.grokFiles.filter fun e => decide (e.1 ∉ orphanedOf store disk.grokFiles))
          k).isSome = true :=
        lookupKey_filter_isSome (p := fun x => decide (x ∉ orphanedOf store disk.grokFiles))
          hsome (decide_eq_true hnotorph)
      have hfix := isNone_false_of_isSome (repersist_preserves_isSome
        (missingFromDiskOf store disk.grokFiles) store _ k h1)
      simp only [hfix]
      simp

theorem orphanedOf_repaired (store : Store) (disk : Disk) :
    orphanedOf store
      (repersist (missingFromDiskOf store disk.grokFiles)
        (disk.grokFiles.filter fun e => decide (e.1 ∉ orphanedOf store disk.grokFiles))
        store) = [] := by
  rw [orphanedOf]
  apply List.filter_eq_nil_iff.mpr
  intro k hk
  rw [topLevelGrokKeys] at hk
  have hk2 := List.mem_filter.mp hk
  rcases mem_keys_repersist _ _ _ _ hk2.1 with hg | hs
  · rcases mem_keys_filter_key
      (p := fun x => decide (x ∉ orphanedOf store disk.grokFiles)) hg with ⟨hgk, hdec⟩
    have hnotorph : k ∉ orphanedOf store disk.grokFiles := of_decide_eq_true hdec
    have htop : k ∈ topLevelGrokKeys disk.grokFiles := by
      rw [topLevelGrokKeys]
      exact List.mem_filter.mpr ⟨hgk, hk2.2⟩
    cases ho : lookupKey store k with
    | none =>
      exfalso
      apply hnotorph
      rw [orphanedOf]
      exact List.mem_filter.mpr ⟨htop, by rw [ho]; rfl⟩
    | some v => simp [ho]
  · simp [isNone_false_of_isSome (lookupKey_isSome_of_mem_keys hs)]

theorem repairIndex_fixes (store : Store) (disk : Disk)
    (hm : disk.manifest.isSome = true) :
    (verifyIndex store (repairIndex store disk)).valid = true := by
  by_cases hv : (verifyIndex store disk).valid = true
  · rw [repairIndex]
    simp only [hv, if_true]
  · rw [Bool.not_eq_true] at hv
    obtain ⟨idx, hidx⟩ := Option.isSome_iff_exists.mp hm
    rw [repairIndex]
    simp only [hv, Bool.false_eq_true, if_false]
    rw [verifyIndex_stats_missingFromDisk hidx, verifyIndex_stats_orphanedFiles hidx]
    exact verifyIndex_some_valid store (manifestOf store) _
      (missingFromMemoryOf_manifestOf store)
      (memoryNotInIndexOf_manifestOf store)
      (missingFromDiskOf_repaired store disk)
      (orphanedOf_repaired store disk)

theorem repairIndex_manifest_isSome (store : Store) (disk : Disk) :
    (repairIndex store disk).manifest.isSome = true := by
  by_cases hv : (verifyIndex store disk).valid = true
  · rw [repairIndex]
    simp only [hv, if_true]
    exact verifyIndex_valid_manifest_isSome hv
  · rw [Bool.not_eq_true] at hv
    rw [repairIndex]
    simp [hv]

/-! ## Lemmas about searchCode -/

theorem searchCode_ok_eq {store : Store} {query : String} {opts : SearchOptions}
    {engine : List Char → List (Nat × Nat)} {results : List SearchResult}
    (h : searchCode store query opts engine = Except.ok results) :
    results = searchFiles engine opts 0 store := by
  rw [searchCode] at h
  by_cases hc : (opts.regex && !isRegexSafe query) = true
  · rw [if_pos hc] at h
    cases h
  · rw [if_neg hc] at h
    exact (Except.ok.inj h).symm

theorem searchFiles_mem {engine : List Char → List (Nat × Nat)} {opts : SearchOptions} :
    ∀ (count : Nat) (l : Store) (r : SearchResult), r ∈ searchFiles engine opts count l →
      r.«matches» = fileMatchesOf engine r.file.content ∧ r.«matches» ≠ [] := by
  intro count l
  induction l generalizing count with
  | nil =>
    intro r hr
    simp [searchFiles] at hr
  | cons e rest ih =>
    intro r hr
    simp only [searchFiles] at hr
    split at hr
    · exact ih _ r hr
    · split at hr
      · exact ih _ r hr
      · split at hr
        next h3 => exact ih _ r hr
        next h3 =>
          have hne : fileMatchesOf engine e.2.content ≠ [] := by
            intro hnil
            apply h3
            rw [hnil]
            rfl
          split at hr
          · have heq := List.mem_singleton.mp hr
            subst heq
            exact ⟨rfl, hne⟩
          · rcases List.mem_cons.mp hr with h | h
            · subst h
              exact ⟨rfl, hne⟩
            · exact ih _ r h

theorem searchFiles_sublist (engine : List Char → List (Nat × Nat)) (opts : SearchOptions) :
    ∀ (count : Nat) (l : Store),
      ((searchFiles engine opts count l).map fun r => r.file).Sublist
        (l.map fun e => e.2) := by
  intro count l
  induction l generalizing count with
  | nil => simp [searchFiles]
  | cons e rest ih =>
    simp only [searchFiles, List.map_cons]
    split
    · exact (ih _).cons _
    · split
      · exact (ih _).cons _
      · split
        · exact (ih _).cons _
        · split
          · simp only [List.map_cons, List.map_nil]
            exact (List.nil_sublist _).cons₂ _
          · simp only [List.map_cons]
            exact (ih _).cons₂ _

theorem collectMatches_shape (engine : List Char → List (Nat × Nat)) :
    ∀ (i : Nat) (lines : List (List Char)) (m : SearchMatch),
      m ∈ collectMatches engine i lines →
      ∃ j line, lines.get? j = some line ∧ m.line = i + j + 1 ∧
        m.content = ⟨trimChars line⟩ ∧
        ∃ p ∈ engine line, m.startIndex = p.1 ∧ m.endIndex = p.1 + p.2 := by
  intro i lines
  induction lines generalizing i with
  | nil =>
    intro m hm
    simp [collectMatches] at hm
  | cons line rest ih =>
    intro m hm
    rw [collectMatches] at hm
    rcases List.mem_append.mp hm with h | h
    · rcases List.mem_map.mp h with ⟨p, hp, hpe⟩
      subst hpe
      refine ⟨0, line, rfl, by show i + 1 = i + 0 + 1; omega, rfl, ⟨p, hp, rfl, rfl⟩⟩
    · rcases ih (i + 1) m h with ⟨j, l2, hget, hline, hcontent, hp⟩
      refine ⟨j + 1, l2, ?_, ?_, hcontent, hp⟩
      · simpa using hget
      · rw [hline]
        omega

/-! ## Lemmas about indexProject and addOrUpdateFile -/

theorem scanStep_lookup_ne (env : ScanEnv) (acc : Store × Disk × Nat) (c f : String)
    (hc : c ≠ f) :
    lookupKey (scanStep env acc c).1 f = lookupKey acc.1 f := by
  rw [scanStep]
  cases hl : lookupKey env.fsFiles c with
  | none => rfl
  | some info2 =>
    simp only []
    split
    · rfl
    · split
      · rfl
      · exact lookupKey_setKey_ne acc.1 c f _ hc

theorem scanFiles_skips {env : ScanEnv} {f : String} {info : FileInfo}
    (hf : lookupKey env.fsFiles f = some info)
    (hs : isFileSizeValid info.size = false) :
    ∀ (files : List String) (acc : Store × Disk × Nat),
      lookupKey acc.1 f = none → lookupKey (scanFiles env acc files).1 f = none := by
  intro files
  induction files with
  | nil =>
    intro acc h
    rw [scanFiles]
    exact h
  | cons c rest ih =>
    intro acc h
    rw [scanFiles]
    apply ih
    by_cases hc : c = f
    · subst hc
      rw [scanStep, hf]
      simp only [hs, Bool.not_false, if_true]
      exact h
    · rw [scanStep_lookup_ne env acc c f hc]
      exact h

theorem addOrUpdateFile_invalid_noop (cwd root : String)
    (fsFiles : List (String × FileInfo)) (relativePath : String)
    (store : Store) (disk : Disk)
    (h : validateFilePath relativePath = false) :
    addOrUpdateFile cwd root fsFiles relativePath store disk = (store, disk) := by
  rw [addOrUpdateFile]
  simp [h]

theorem addOrUpdateFile_large_noop (cwd root : String)
    (fsFiles : List (String × FileInfo)) (relativePath : String)
    (store : Store) (disk : Disk) (info : FileInfo)
    (hf : lookupKey fsFiles relativePath = some info)
    (hsize : 1024 * 1024 < info.size) :
    addOrUpdateFile cwd root fsFiles relativePath store disk = (store, disk) := by
  simp only [addOrUpdateFile]
  split
  · rfl
  · split
    · rfl
    · simp only [hf]
      rw [if_pos hsize]

theorem addOrUpdateFile_accepts (cwd root : String)
    (fsFiles : List (String × FileInfo)) (relativePath : String)
    (store : Store) (disk : Disk) (info : FileInfo)
    (hv : validateFilePath relativePath = true)
    (hsafe : isPathSafe cwd root (joinPath root relativePath) = true)
    (hf : lookupKey fsFiles relativePath = some info)
    (hsize : info.size ≤ 1024 * 1024)
    (hbin : info.content.data.contains '\u0000' = false) :
    lookupKey (addOrUpdateFile cwd root fsFiles relativePath store disk).1 relativePath
      = some
        { path := joinPath root relativePath
          relativePath := relativePath
          content := info.content
          language := getLanguageFromExtension relativePath
          size := info.size
          lastModified := info.mtime } := by
  rw [addOrUpdateFile]
  simp only [hv, hsafe, hf, Bool.not_true, Bool.false_eq_true, if_false]
  rw [if_neg (by omega : ¬ 1024 * 1024 < info.size)]
  rw [if_neg (by rw [hbin]; exact Bool.false_ne_true)]
  exact lookupKey_setKey_self store relativePath _

/-! ## The claims -/

/-- C10: `isPathSafe` returns true exactly when the fully resolved
target equals the resolved base or begins with the resolved base
followed by the path separator; in particular a sibling path whose name
merely extends the base's last component (base `/p/app`, target
resolving to `/p/app2/x`) is rejected — as is an upward traversal —
while a genuine child is accepted. -/
theorem C10_isPathSafe_prefix_boundary :
    (∀ cwd basePath targetPath, isPathSafe cwd basePath targetPath = true ↔
      (resolve2 cwd basePath targetPath = resolveFrom cwd basePath ∨
        strStartsWith (resolve2 cwd basePath targetPath)
          (resolveFrom cwd basePath ++ "/") = true))
    ∧ isPathSafe "/" "/p/app" "/p/app2/x" = false
    ∧ isPathSafe "/" "/p/app" "../app2/x" = false
    ∧ isPathSafe "/" "/p/app" "x" = true := by
  refine ⟨?_, by decide, by decide, by decide⟩
  intro cwd basePath targetPath
  simp only [isPathSafe, Bool.or_eq_true, beq_iff_eq]
  tauto

/-- C1 counterexample: a file of exactly `MAX_FILE_SIZE` bytes is
accepted and indexed by the Scanner's full scan but skipped by the
upsert path `addOrUpdateFile`, whose limit is the hard-coded
`1024 * 1024` bytes; so the same size-acceptance rule does not apply to
both paths. -/
theorem C1_counterexample_max_size_file :
    (lookupKey (indexProject
        ⟨"/r", ["big.ts"], fun _ => false, [("big.ts", ⟨MAX_FILE_SIZE, "x", 0⟩)]⟩
        ⟨some [], []⟩).1 "big.ts").isSome = true
    ∧ addOrUpdateFile "/" "/r" [("big.ts", ⟨MAX_FILE_SIZE, "x", 0⟩)] "big.ts" []
        ⟨some [], []⟩ = ([], ⟨some [], []⟩) :=
  ⟨by decide, by decide⟩

/-- C1 (amended): the two paths use different size rules.  The
Scanner's full scan accepts a file only when `isFileSizeValid` holds
(`0 < size ≤ MAX_FILE_SIZE`: a `MAX_FILE_SIZE`-byte file is accepted, a
`MAX_FILE_SIZE + 1`-byte file or an empty file is skipped).  The
Watcher/upsert path `addOrUpdateFile` instead tests only
`size > 1024 * 1024`: a readable file is skipped when it is larger than
1 MiB, and accepted — a record with the observed size is created —
whenever it is at most 1 MiB and passes the path and binary checks,
with no positivity requirement, so a 0-byte file is accepted by the
upsert path although the scan skips it. -/
theorem C1_amended_size_rules :
    (∀ (cwd root : String) (fsFiles : List (String × FileInfo))
        (relativePath : String) (store : Store) (disk : Disk) (info : FileInfo),
        lookupKey fsFiles relativePath = some info → 1024 * 1024 < info.size →
        addOrUpdateFile cwd root fsFiles relativePath store disk = (store, disk))
    ∧ (∀ (cwd root : String) (fsFiles : List (String × FileInfo))
        (relativePath : String) (store : Store) (disk : Disk) (info : FileInfo),
        validateFilePath relativePath = true →
        isPathSafe cwd root (joinPath root relativePath) = true →
        lookupKey fsFiles relativePath = some info →
        info.size ≤ 1024 * 1024 →
        info.content.data.contains '\u0000' = false →
        lookupKey (addOrUpdateFile cwd root fsFiles relativePath store disk).1 relativePath
          = some
            { path := joinPath root relativePath
              relativePath := relativePath
              content := info.content
              language := getLanguageFromExtension relativePath
              size := info.size
              lastModified := info.mtime })
    ∧ (∀ (env : ScanEnv) (disk0 : Disk) (f : String) (info : FileInfo),
        lookupKey env.fsFiles f = some info → isFileSizeValid info.size = false →
        lookupKey (indexProject env disk0).1 f = none)
    ∧ isFileSizeValid MAX_FILE_SIZE = true
    ∧ isFileSizeValid (MAX_FILE_SIZE + 1) = false
    ∧ isFileSizeValid 0 = false := by
  refine ⟨?_, ?_, ?_, by decide, by decide, by decide⟩
  · intro cwd root fsFiles relativePath store disk info hf hsize
    exact addOrUpdateFile_large_noop cwd root fsFiles relativePath store disk info hf hsize
  · intro cwd root fsFiles relativePath store disk info hv hsafe hf hsize hbin
    exact addOrUpdateFile_accepts cwd root fsFiles relativePath store disk info
      hv hsafe hf hsize hbin
  · intro env disk0 f info hf hs
    show lookupKey (scanFiles env ([], clearPersistedFiles disk0, 0)
      (env.candidates.filter fun c => !env.ignores c)).1 f = none
    exact scanFiles_skips hf hs _ _ rfl

/-- C1 witness: the amended rules at concrete files — a 1 MiB + 1 byte
file is skipped by the upsert although well below `MAX_FILE_SIZE`, and
a 0-byte file is skipped by the scan (`isFileSizeValid 0 = false`) yet
accepted by the upsert path, which creates its record. -/
theorem C1_amended_size_rules_witness :
    lookupKey [("big.ts", (⟨1048577, "x", 0⟩ : FileInfo))] "big.ts"
        = some ⟨1048577, "x", 0⟩
    ∧ 1024 * 1024 < 1048577
    ∧ addOrUpdateFile "/" "/r" [("big.ts", ⟨1048577, "x", 0⟩)] "big.ts" []
        ⟨some [], []⟩ = ([], ⟨some [], []⟩)
    ∧ isFileSizeValid 0 = false
    ∧ validateFilePath "zero.ts" = true
    ∧ isPathSafe "/" "/r" (joinPath "/r" "zero.ts") = true
    ∧ lookupKey (addOrUpdateFile "/" "/r" [("zero.ts", ⟨0, "", 0⟩)] "zero.ts" []
        ⟨some [], []⟩).1 "zero.ts"
        = some ⟨joinPath "/r" "zero.ts", "zero.ts", "",
                getLanguageFromExtension "zero.ts", 0, 0⟩
    ∧ lookupKey (indexProject
        ⟨"/r", ["zero.ts"], fun _ => false, [("zero.ts", ⟨0, "", 0⟩)]⟩
        ⟨some [], []⟩).1 "zero.ts" = none :=
  ⟨by decide, by decide,
   C1_amended_size_rules.1 "/" "/r" [("big.ts", ⟨1048577, "x", 0⟩)] "big.ts" []
     ⟨some [], []⟩ ⟨1048577, "x", 0⟩ (by decide) (by decide),
   by decide, by decide, by decide,
   C1_amended_size_rules.2.1 "/" "/r" [("zero.ts", ⟨0, "", 0⟩)] "zero.ts" []
     ⟨some [], []⟩ ⟨0, "", 0⟩ (by decide) (by decide) (by decide) (by decide) (by decide),
   C1_amended_size_rules.2.2.1 ⟨"/r", ["zero.ts"], fun _ => false, [("zero.ts", ⟨0, "", 0⟩)]⟩
     ⟨some [], []⟩ "zero.ts" ⟨0, "", 0⟩ (by decide) (by decide)⟩

/-- C2 (code bug, witnessed): a full `indexProject` rescan is supposed
to delete every previously persisted mirror content object before
indexing, but `clearPersistedFiles` only unlinks the `.grok` names that
a non-recursive `readdir` of the codebase directory returns: the
top-level stale object (`top.ts`) is deleted, while the stale object in
a subdirectory (`sub/a.ts`) survives the rescan. -/
theorem C2_bug_nested_mirror_object_survives_rescan :
    (indexProject (⟨"/r", [], fun _ => false, []⟩ : ScanEnv)
        ⟨some [("sub/a.ts", ⟨"/r/sub/a.ts", "sub/a.ts", "typescript", 3, 0⟩)],
         [("top.ts", "t"), ("sub/a.ts", "old")]⟩).2.1.grokFiles
      = [("sub/a.ts", "old")] := by
  decide

/-- C3 (code bug, witnessed): `verifyIndex` reports `valid = true` on a
state in which the nested mirror content object `sub/a.ts` has no Index
Store entry — a member of the claim's fourth divergence set — because
orphan detection only examines the non-recursive top-level `readdir`
names; so the validity flag is not equivalent to the emptiness of the
four divergence sets. -/
theorem C3_bug_valid_despite_nested_orphan :
    (verifyIndex [] ⟨some [], [("sub/a.ts", "x")]⟩).valid = true
    ∧ lookupKey ([] : Store) "sub/a.ts" = none
    ∧ lookupKey (⟨some [], [("sub/a.ts", "x")]⟩ : Disk).grokFiles "sub/a.ts"
        = some "x" :=
  ⟨by decide, by decide, by decide⟩

/-- C4: `repairIndex` is idempotent in the claimed sense: from every
store and persisted state, after calling `repairIndex` twice in
succession `verifyIndex` reports `valid = true`.  The first repair
deletes the reported orphans, re-persists the reported missing content
objects and rewrites the manifest from the store; in the one case where
that is not enough — an unreadable manifest, which makes the first
verification skip the disk checks — the second repair finishes the
job. -/
theorem C4_repairIndex_idempotent (store : Store) (disk : Disk) :
    (verifyIndex store (repairIndex store (repairIndex store disk))).valid = true :=
  repairIndex_fixes store (repairIndex store disk)
    (repairIndex_manifest_isSome store disk)

/-- C5 counterexample: the Scanner performs no path validation — a
record whose `relativePath` contains the control character U+0001 is
created by `indexProject` exactly as enumerated, although
`validateFilePath` rejects that path; so the claimed invariant (no
control characters, with validation before every record creation) fails
on the Scanner path. -/
theorem C5_counterexample_scan_indexes_control_char_path :
    (lookupKey (indexProject
        ⟨"/r", ["bad\u0001.ts"], fun _ => false, [("bad\u0001.ts", ⟨5, "hello", 0⟩)]⟩
        ⟨some [], []⟩).1 "bad\u0001.ts").isSome = true
    ∧ validateFilePath "bad\u0001.ts" = false :=
  ⟨by decide, by decide⟩

/-- C5 (amended): on the Watcher/upsert path the invariant holds as
claimed — `addOrUpdateFile` runs `validateFilePath` before touching
anything, and when validation fails neither the store nor the persisted
state changes; the Scanner path, by contrast, indexes the enumerated
relative paths without this validation. -/
theorem C5_amended_upsert_validates_before_mutation
    (cwd root : String) (fsFiles : List (String × FileInfo)) (relativePath : String)
    (store : Store) (disk : Disk) (h : validateFilePath relativePath = false) :
    addOrUpdateFile cwd root fsFiles relativePath store disk = (store, disk) :=
  addOrUpdateFile_invalid_noop cwd root fsFiles relativePath store disk h

/-- C5 witness: the amended theorem applied at the traversal path
`../x`, which `validateFilePath` rejects. -/
theorem C5_amended_witness :
    validateFilePath "../x" = false
    ∧ addOrUpdateFile "/" "/r" [] "../x" [] ⟨some [], []⟩ = ([], ⟨some [], []⟩) :=
  ⟨by decide,
   C5_amended_upsert_validates_before_mutation "/" "/r" [] "../x" [] ⟨some [], []⟩
     (by decide)⟩

/-- C6: in regex mode, a pattern rejected by the Safe Matcher makes
`searchCode` fail with the unsafe-pattern error before the pattern is
compiled and before any file is visited: the call returns the error, no
result list is produced, and the store — which `searchCode` only
reads — is untouched. -/
theorem C6_unsafe_regex_rejected_before_execution
    (store : Store) (query : String) (opts : SearchOptions)
    (engine : List Char → List (Nat × Nat))
    (hregex : opts.regex = true) (hrej : isRegexSafe query = false) :
    searchCode store query opts engine = .error .unsafePattern := by
  simp [searchCode, hregex, hrej]

/-- C6 witness: the spec's scenario pattern `(a+)+` is rejected. -/
theorem C6_unsafe_regex_witness :
    ({ regex := true } : SearchOptions).regex = true
    ∧ isRegexSafe "(a+)+" = false
    ∧ searchCode [("a.ts", ⟨"/r/a.ts", "a.ts", "aaaa", "typescript", 4, 0⟩)] "(a+)+"
        { regex := true } (fun _ => []) = .error .unsafePattern :=
  ⟨rfl, by decide,
   C6_unsafe_regex_rejected_before_execution _ _ _ _ rfl (by decide)⟩

/-- C7: matching is line-oriented: whenever `searchCode` succeeds,
every returned file has at least one match, its match list is exactly
the per-line scan of its content (each line tested independently), and
every reported match carries the 1-based number of the line it came
from, the trimmed text of that line, and start/end character offsets
with `endIndex = startIndex + length` of the match within that line. -/
theorem C7_line_oriented_matching
    (store : Store) (query : String) (opts : SearchOptions)
    (engine : List Char → List (Nat × Nat)) (results : List SearchResult)
    (h : searchCode store query opts engine = Except.ok results) :
    ∀ r ∈ results,
      r.«matches» ≠ []
      ∧ r.«matches» = fileMatchesOf engine r.file.content
      ∧ ∀ m ∈ r.«matches», ∃ i line,
          (splitOnChar '\n' r.file.content.data).get? i = some line
          ∧ m.line = i + 1
          ∧ m.content = ⟨trimChars line⟩
          ∧ ∃ p ∈ engine line, m.startIndex = p.1 ∧ m.endIndex = p.1 + p.2 := by
  intro r hr
  rw [searchCode_ok_eq h] at hr
  rcases searchFiles_mem 0 store r hr with ⟨heq, hne⟩
  refine ⟨hne, heq, ?_⟩
  intro m hm
  rw [heq, fileMatchesOf] at hm
  rcases collectMatches_shape engine 0 _ m hm with ⟨j, line, hget, hline, hcontent, hp⟩
  exact ⟨j, line, hget, by omega, hcontent, hp⟩

/-- C7 witness: the spec's scenario — case-insensitive literal search
for `foo` over two files, one containing `Foo()` on line 3 — returns
exactly one result with one match at line 3, trimmed text, and offsets
0 to 3; and the line-oriented shape holds of it. -/
theorem C7_line_oriented_witness :
    (searchCode
        [("a.ts", ⟨"/r/a.ts", "a.ts", "nothing here\nmore text", "typescript", 22, 0⟩),
         ("b.ts", ⟨"/r/b.ts", "b.ts", "alpha\nbeta\nFoo() bar", "typescript", 20, 0⟩)]
        "foo" {} (literalEngine false "foo")
      = Except.ok [⟨⟨"/r/b.ts", "b.ts", "alpha\nbeta\nFoo() bar", "typescript", 20, 0⟩,
                    [⟨3, "Foo() bar", 0, 3⟩]⟩])
    ∧ ∀ r ∈ [(⟨⟨"/r/b.ts", "b.ts", "alpha\nbeta\nFoo() bar", "typescript", 20, 0⟩,
               [⟨3, "Foo() bar", 0, 3⟩]⟩ : SearchResult)],
        r.«matches» ≠ []
        ∧ r.«matches» = fileMatchesOf (literalEngine false "foo") r.file.content
        ∧ ∀ m ∈ r.«matches», ∃ i line,
            (splitOnChar '\n' r.file.content.data).get? i = some line
            ∧ m.line = i + 1
            ∧ m.content = ⟨trimChars line⟩
            ∧ ∃ p ∈ literalEngine false "foo" line,
                m.startIndex = p.1 ∧ m.endIndex = p.1 + p.2 :=
  ⟨by rfl,
   C7_line_oriented_matching
     [("a.ts", ⟨"/r/a.ts", "a.ts", "nothing here\nmore text", "typescript", 22, 0⟩),
      ("b.ts", ⟨"/r/b.ts", "b.ts", "alpha\nbeta\nFoo() bar", "typescript", 20, 0⟩)]
     "foo" {} (literalEngine false "foo") _ (by rfl)⟩

/-- C8 counterexample: after `start` and the `ready` event the watcher
is active; delivering an `error` event from the underlying subscription
leaves the state unchanged — `isActive` still returns true and the
subscription is still held — contradicting the claimed transition to
the stopped state. -/
theorem C8_counterexample_error_keeps_watcher_active :
    FileWatcher.isActive
        (FileWatcher.onError (FileWatcher.onReady (FileWatcher.start FileWatcher.initial)))
      = true
    ∧ (FileWatcher.onError
        (FileWatcher.onReady (FileWatcher.start FileWatcher.initial))).hasWatcher
      = true :=
  ⟨by decide, by decide⟩

/-- C8 (amended): an error reported by the underlying subscription
mechanism is only logged; the watcher does not transition to stopped —
the error handler leaves the entire watcher state (subscription held,
`isActive`) unchanged. -/
theorem C8_amended_error_handler_is_noop (s : WatcherState) :
    FileWatcher.onError s = s
    ∧ FileWatcher.isActive (FileWatcher.onError s) = FileWatcher.isActive s :=
  ⟨rfl, rfl⟩

/-- C9: `searchCode` is deterministic — it is a pure function of the
store snapshot, the query, the options and the engine, so two
invocations on the same snapshot return the same result list — and the
files of the result list appear in the store's insertion order (they
form a sublist of the store's value sequence). -/
theorem C9_search_deterministic_insertion_order :
    (∀ (store : Store) (query : String) (opts : SearchOptions)
        (engine : List Char → List (Nat × Nat)),
        searchCode store query opts engine = searchCode store query opts engine)
    ∧ (∀ (store : Store) (query : String) (opts : SearchOptions)
        (engine : List Char → List (Nat × Nat)) (results : List SearchResult),
        searchCode store query opts engine = Except.ok results →
        (results.map fun r => r.file).Sublist (store.map fun e => e.2)) := by
  refine ⟨fun _ _ _ _ => rfl, ?_⟩
  intro store query opts engine results h
  rw [searchCode_ok_eq h]
  exact searchFiles_sublist engine opts 0 store

/-- C9 witness: the insertion-order sublist property at a concrete
store. -/
theorem C9_search_deterministic_witness :
    (searchCode [("b.ts", ⟨"/r/b.ts", "b.ts", "beta", "typescript", 4, 0⟩)]
        "b" {} (literalEngine false "b")
      = Except.ok [⟨⟨"/r/b.ts", "b.ts", "beta", "typescript", 4, 0⟩,
                    [⟨1, "beta", 0, 1⟩]⟩])
    ∧ ([(⟨⟨"/r/b.ts", "b.ts", "beta", "typescript", 4, 0⟩,
          [⟨1, "beta", 0, 1⟩]⟩ : SearchResult)].map fun r => r.file).Sublist
        ([("b.ts", (⟨"/r/b.ts", "b.ts", "beta", "typescript", 4, 0⟩ : CodeFile))].map
          fun e => e.2) :=
  ⟨by rfl,
   C9_search_deterministic_insertion_order.2
     [("b.ts", ⟨"/r/b.ts", "b.ts", "beta", "typescript", 4, 0⟩)] "b" {}
     (literalEngine false "b") _ (by rfl)⟩
